import Mathlib

/-!
Shallow embedding of `src/tracker.py` from the claude-code-limit-tracker
repository: the session analyzer, the timestamp parser, the context
estimator, the analysis cache, and the usage aggregator, together with
theorems settling the specification claims.

Modelling conventions:
* Python floats become rationals (`ℚ`); `len` and `//` become `Nat`
  operations.
* A transcript file's content is the list of its lines after `json.loads`:
  `Option JsonRecord`, where `none` is a line that failed to parse.
* JSON records are projected onto exactly the fields the code reads
  (`type`, `timestamp`, `isMeta`, `userType`, `message.role`,
  `message.model`, `message.content`); `Option` encodes an absent field,
  and `.get` defaults are applied in the accessor functions.
* The filesystem (project directories, transcript files, sizes, mtimes,
  read failures) is explicit data.
-/

/-- Python `str.lower()`, modelled on the ASCII model identifiers the code
compares against. -/
def pyLower (s : String) : String := String.mk (s.data.map Char.toLower)

/-- Does the pattern occur at the head of the list (helper for the
substring test)? -/
def leadsWith : List Char → List Char → Bool
  | [], _ => true
  | _ :: _, [] => false
  | p :: ps, c :: cs => p == c && leadsWith ps cs

/-- Does the pattern occur anywhere in the list? -/
def occursIn (pat : List Char) : List Char → Bool
  | [] => pat.isEmpty
  | c :: cs => leadsWith pat (c :: cs) || occursIn pat cs

/-- Python substring test `pat in s`. -/
def strIn (pat s : String) : Bool := occursIn pat.data s.data

/-- A nested content block, one level deep, as inspected by the character
counter; `isObj` models `isinstance(cb, dict)`. -/
structure NestedItem where
  isObj : Bool := true
  text : Option String := none
  deriving DecidableEq

/-- One element of an array-shaped `message.content`; `isObj` models
`isinstance(item, dict)`. `inputStr` holds the JSON serialization of a
truthy `input` value and is `none` when `input` is absent or falsy. -/
structure Block where
  isObj : Bool := true
  type_ : Option String := none
  text : Option String := none
  inputStr : Option String := none
  nested : Option (List NestedItem) := none
  deriving DecidableEq

/-- The `message.content` field: a plain string or an array of blocks
(the two shapes the code distinguishes with `isinstance`). -/
inductive Content where
  | str (s : String)
  | blocks (items : List Block)
  deriving DecidableEq

/-- Python truthiness of a content value: a non-empty string or a
non-empty list. -/
def contentTruthy : Content → Bool
  | .str s => s != ""
  | .blocks items => !items.isEmpty

/-- The nested `message` object, projected onto the fields the code
reads. A missing `content` key defaults to the empty string, matching
`.get('content', '')`. -/
structure Message where
  role : Option String := none
  model : Option String := none
  content : Content := .str ""
  deriving DecidableEq

/-- One parsed JSONL record, projected onto the fields the code reads.
`isMeta` models `msg.get('isMeta', False)`. -/
structure JsonRecord where
  type_ : Option String := none
  timestamp : Option String := none
  isMeta : Bool := false
  userType : Option String := none
  message : Option Message := none
  deriving DecidableEq

/-- Models `msg.get('message', {}).get('role')`. -/
def msgRole (r : JsonRecord) : Option String :=
  match r.message with
  | some m => m.role
  | none => none

/-- Models `msg.get('message', {}).get('model', '')`. -/
def msgModelStr (r : JsonRecord) : String :=
  match r.message with
  | some m => m.model.getD ""
  | none => ""

/-- Models `msg.get('message', {}).get('content', '')`. -/
def msgContent (r : JsonRecord) : Content :=
  match r.message with
  | some m => m.content
  | none => .str ""

/-- Embeds `UsageTracker._is_command_message`: a plain string containing
either marker, or an array holding a dict block of type `"text"` whose
text contains either marker. -/
def is_command_message : Content → Bool
  | .str s => strIn "<command-name>" s || strIn "<local-command-stdout>" s
  | .blocks items => items.any fun item =>
      item.isObj && item.type_ == some "text" &&
        (strIn "<command-name>" (item.text.getD "") ||
         strIn "<local-command-stdout>" (item.text.getD ""))

/-- The outer condition of the user-prompt branch in
`_analyze_jsonl_file` (record shape, meta flag, user type). -/
def isExternalUserRecord (r : JsonRecord) : Bool :=
  r.type_ == some "user" && msgRole r == some "user" &&
    !r.isMeta && r.userType == some "external"

/-- The full qualifying-user-prompt classification of
`_analyze_jsonl_file`: outer condition, non-empty content, and not a
command message. -/
def isQualifyingPrompt (r : JsonRecord) : Bool :=
  isExternalUserRecord r &&
    contentTruthy (msgContent r) && !is_command_message (msgContent r)

/-- The record of the spec's command-filter example: all outer conditions
hold but the content carries a command-name tag. -/
def commandExampleRecord : JsonRecord :=
  { type_ := some "user"
    isMeta := false
    userType := some "external"
    message := some { role := some "user"
                      content := .str "<command-name>foo</command-name>" } }

/-- C1: a record is counted as a qualifying user prompt iff its type is
"user", its nested message role is "user", it is not flagged isMeta, its
userType equals "external", its message content is non-empty, and the
content is not a command message; in particular the record whose content
is "<command-name>foo</command-name>" with all other conditions met is
not counted. -/
theorem qualifying_prompt_characterization :
    (∀ r : JsonRecord,
      isQualifyingPrompt r = true ↔
        (r.type_ = some "user" ∧ msgRole r = some "user" ∧
         r.isMeta = false ∧ r.userType = some "external" ∧
         contentTruthy (msgContent r) = true ∧
         is_command_message (msgContent r) = false)) ∧
    isQualifyingPrompt commandExampleRecord = false := by
  constructor
  · intro r
    simp [isQualifyingPrompt, isExternalUserRecord, Bool.and_eq_true,
      Bool.not_eq_true']
    tauto
  · decide

/-! Timestamp parser (`_parse_timestamp`).

The Python code first strips a fractional-seconds suffix by splitting on
the first dot and appending a literal `Z`, then replaces every `Z` with
`+00:00` and hands the result to `datetime.fromisoformat`, returning
`dt.timestamp()`.  We embed the string surgery on character lists
verbatim, and model `datetime.fromisoformat` by an executable parser for
the shapes that can reach it from this code path (a full
`YYYY-MM-DDTHH:MM:SS` date-time, optionally followed by a `+HH:MM` or
`-HH:MM` offset; the strings built by `_parse_timestamp` never contain a
fraction at that point).  `datetime.timestamp()` interprets a naive
date-time in the ambient local timezone, which we model as a fixed
offset `localOff` in minutes. -/

/-- The decimal digit character for `n ≤ 9`. -/
def digitChar (n : ℕ) : Char := Char.ofNat (48 + n)

/-- Numeric value of a decimal digit character. -/
def digVal (c : Char) : Option ℕ :=
  if 48 ≤ c.toNat ∧ c.toNat ≤ 57 then some (c.toNat - 48) else none

/-- Two-digit zero-padded decimal rendering. -/
def pad2 (n : ℕ) : List Char := [digitChar (n / 10), digitChar (n % 10)]

/-- Four-digit zero-padded decimal rendering. -/
def pad4 (n : ℕ) : List Char :=
  [digitChar (n / 1000), digitChar (n / 100 % 10),
   digitChar (n / 10 % 10), digitChar (n % 10)]

/-- Parse exactly two decimal digits. -/
def parse2 : List Char → Option (ℕ × List Char)
  | c1 :: c2 :: rest =>
    match digVal c1, digVal c2 with
    | some a, some b => some (a * 10 + b, rest)
    | _, _ => none
  | _ => none

/-- Parse exactly four decimal digits. -/
def parse4 : List Char → Option (ℕ × List Char)
  | c1 :: c2 :: c3 :: c4 :: rest =>
    match digVal c1, digVal c2, digVal c3, digVal c4 with
    | some a, some b, some c, some d =>
      some (a * 1000 + b * 100 + c * 10 + d, rest)
    | _, _, _, _ => none
  | _ => none

/-- Consume one expected character. -/
def expectChar (ch : Char) : List Char → Option (List Char)
  | c :: rest => if c == ch then some rest else none
  | [] => none

/-- Parse `HH:MM` to a minute count, consuming the whole remainder, with
the range checks `datetime.timezone` enforces. -/
def parseHM (cs : List Char) : Option ℕ :=
  match parse2 cs with
  | none => none
  | some (a, r1) =>
    match expectChar ':' r1 with
    | none => none
    | some r2 =>
      match parse2 r2 with
      | none => none
      | some (b, r3) =>
        if r3 = [] ∧ a ≤ 23 ∧ b ≤ 59 then some (a * 60 + b) else none

/-- Parse an optional trailing UTC offset (`+HH:MM` or `-HH:MM`), in
minutes; `some none` means the date-time is naive. -/
def parseOffset : List Char → Option (Option ℤ)
  | [] => some none
  | '+' :: rest => (parseHM rest).map fun v => some (v : ℤ)
  | '-' :: rest => (parseHM rest).map fun v => some (-(v : ℤ))
  | _ => none

/-- Gregorian leap-year test. -/
def isLeap (y : ℕ) : Bool := (y % 4 == 0 && y % 100 != 0) || y % 400 == 0

/-- Number of days in a month. -/
def daysInMonth (y m : ℕ) : ℕ :=
  if m == 2 then (if isLeap y then 29 else 28)
  else if m == 4 || m == 6 || m == 9 || m == 11 then 30
  else 31

/-- The field ranges `datetime` accepts. -/
def validDT (y mo d hr mi s : ℕ) : Prop :=
  1 ≤ y ∧ y ≤ 9999 ∧ 1 ≤ mo ∧ mo ≤ 12 ∧ 1 ≤ d ∧ d ≤ daysInMonth y mo ∧
    hr ≤ 23 ∧ mi ≤ 59 ∧ s ≤ 59

instance (y mo d hr mi s : ℕ) : Decidable (validDT y mo d hr mi s) := by
  unfold validDT
  infer_instance

/-- The result of `datetime.fromisoformat`, projected onto the fields
`timestamp()` uses; `tzMin` is the UTC offset in minutes, `none` for a
naive date-time. -/
structure PyDateTime where
  year : ℕ
  month : ℕ
  day : ℕ
  hour : ℕ
  minute : ℕ
  second : ℕ
  tzMin : Option ℤ
  deriving DecidableEq

/-- Model of `datetime.fromisoformat` on the dot-free strings built by
`_parse_timestamp`: a full `YYYY-MM-DD{T| }HH:MM:SS` date-time followed
by an optional `±HH:MM` offset, with range validation. -/
def parseISO (cs : List Char) : Option PyDateTime :=
  match parse4 cs with
  | none => none
  | some (y, r1) =>
    match expectChar '-' r1 with
    | none => none
    | some r2 =>
      match parse2 r2 with
      | none => none
      | some (mo, r3) =>
        match expectChar '-' r3 with
        | none => none
        | some r4 =>
          match parse2 r4 with
          | none => none
          | some (d, r5) =>
            match r5 with
            | [] => none
            | sep :: r6 =>
              if sep == 'T' || sep == ' ' then
                match parse2 r6 with
                | none => none
                | some (hr, r7) =>
                  match expectChar ':' r7 with
                  | none => none
                  | some r8 =>
                    match parse2 r8 with
                    | none => none
                    | some (mi, r9) =>
                      match expectChar ':' r9 with
                      | none => none
                      | some r10 =>
                        match parse2 r10 with
                        | none => none
                        | some (s, r11) =>
                          match parseOffset r11 with
                          | none => none
                          | some tzv =>
                            if validDT y mo d hr mi s then
                              some ⟨y, mo, d, hr, mi, s, tzv⟩
                            else none
              else none

/-- Days from 1970-01-01 to the given civil date (proleptic Gregorian),
the standard days-from-civil computation. -/
def daysFromCivil (y m d : ℤ) : ℤ :=
  let y2 := if m ≤ 2 then y - 1 else y
  let era := Int.fdiv y2 400
  let yoe := y2 - era * 400
  let mp := (m + 9) % 12
  let doy := (153 * mp + 2) / 5 + d - 1
  let doe := yoe * 365 + yoe / 4 - yoe / 100 + doy
  era * 146097 + doe - 719468

/-- Model of `datetime.timestamp()`: epoch seconds of the civil fields,
shifted by the explicit UTC offset, or by the ambient local offset
`localOff` (minutes) when the date-time is naive. -/
def pyTimestampQ (localOff : ℤ) (dt : PyDateTime) : ℚ :=
  ((daysFromCivil dt.year dt.month dt.day * 86400
    + dt.hour * 3600 + dt.minute * 60 + dt.second
    - 60 * (dt.tzMin.getD localOff) : ℤ) : ℚ)

/-- Python `str.replace('Z', '+00:00')` on character lists. -/
def replaceZ : List Char → List Char
  | [] => []
  | c :: cs => (if c == 'Z' then ['+', '0', '0', ':', '0', '0'] else [c]) ++ replaceZ cs

/-- Embeds `UsageTracker._parse_timestamp`: empty and `"null"` inputs
resolve to no value; a fractional-seconds suffix is cut at the first dot
and a literal `Z` appended; every `Z` is then replaced by `+00:00` and
the result parsed; parse failure resolves to no value. -/
def parse_timestamp (localOff : ℤ) (ts : String) : Option ℚ :=
  if ts = "" ∨ ts = "null" then none
  else
    let cs := ts.data
    let clean :=
      if cs.any (fun c => c == '.') then
        cs.takeWhile (fun c => !(c == '.')) ++ ['Z']
      else cs
    match parseISO (replaceZ clean) with
    | some dt => some (pyTimestampQ localOff dt)
    | none => none

/-- The timezone suffix of an ISO-8601 timestamp: absent, the literal
`Z`, or an explicit offset in minutes. -/
inductive TZSpec where
  | naive
  | zulu
  | offMin (m : ℤ)
  deriving DecidableEq

/-- A structured valid ISO-8601 timestamp: civil fields, an optional
fractional-seconds part (its digits), and a timezone suffix. -/
structure ISOTs where
  year : ℕ
  month : ℕ
  day : ℕ
  hour : ℕ
  minute : ℕ
  second : ℕ
  frac : Option ℕ
  tz : TZSpec
  deriving DecidableEq

/-- The `YYYY-MM-DDTHH:MM:SS` core of the rendering. -/
def dtChars (y mo d hr mi s : ℕ) : List Char :=
  pad4 y ++ '-' :: pad2 mo ++ '-' :: pad2 d ++
    'T' :: pad2 hr ++ ':' :: pad2 mi ++ ':' :: pad2 s

/-- Rendering of the fractional-seconds part. -/
def renderFrac : Option ℕ → List Char
  | none => []
  | some n => '.' :: (toString n).data

/-- Rendering of the timezone suffix. -/
def renderTZ : TZSpec → List Char
  | .naive => []
  | .zulu => ['Z']
  | .offMin m =>
    (if m < 0 then '-' else '+') :: pad2 (m.natAbs / 60) ++ ':' :: pad2 (m.natAbs % 60)

/-- The canonical string form of a structured ISO-8601 timestamp. -/
def renderISO (t : ISOTs) : String :=
  String.mk (dtChars t.year t.month t.day t.hour t.minute t.second ++
    renderFrac t.frac ++ renderTZ t.tz)

/-- The UTC offset conveyed by a timezone suffix. -/
def tzOffsetOf : TZSpec → Option ℤ
  | .naive => none
  | .zulu => some 0
  | .offMin m => some m

/-- The reference ISO-8601 parse of the timestamp with its fractional
seconds truncated: the civil fields as written, the timezone as
conveyed (naive resolving to the ambient local offset). -/
def refEpoch (localOff : ℤ) (t : ISOTs) : ℚ :=
  pyTimestampQ localOff
    ⟨t.year, t.month, t.day, t.hour, t.minute, t.second, tzOffsetOf t.tz⟩

/-- Range validity of a timezone suffix (offsets strictly inside a day,
as `datetime.timezone` requires). -/
def tzValid : TZSpec → Prop
  | .offMin m => m.natAbs ≤ 1439
  | _ => True

instance : (z : TZSpec) → Decidable (tzValid z)
  | .naive => Decidable.isTrue trivial
  | .zulu => Decidable.isTrue trivial
  | .offMin m => inferInstanceAs (Decidable (m.natAbs ≤ 1439))

/-- Validity of a structured timestamp: civil fields in range and a
valid timezone suffix. -/
def validTs (t : ISOTs) : Prop :=
  validDT t.year t.month t.day t.hour t.minute t.second ∧ tzValid t.tz

instance (t : ISOTs) : Decidable (validTs t) := by
  unfold validTs
  infer_instance

/-! Lemmas about the timestamp rendering and parsing. -/

theorem digVal_digitChar (k : ℕ) (hk : k ≤ 9) : digVal (digitChar k) = some k := by
  interval_cases k <;> decide

theorem digitChar_beq_dot (k : ℕ) (hk : k ≤ 9) : (digitChar k == '.') = false := by
  interval_cases k <;> decide

theorem digitChar_beq_z (k : ℕ) (hk : k ≤ 9) : (digitChar k == 'Z') = false := by
  interval_cases k <;> decide

theorem digitChar_ne_nchar (k : ℕ) (hk : k ≤ 9) : digitChar k ≠ 'n' := by
  interval_cases k <;> decide

theorem daysInMonth_le (y m : ℕ) : daysInMonth y m ≤ 31 := by
  unfold daysInMonth
  split
  · split <;> omega
  · split <;> omega

theorem parse2_pad2 {r : List Char} (n : ℕ) (hn : n ≤ 99) :
    parse2 (pad2 n ++ r) = some (n, r) := by
  have h1 : n / 10 ≤ 9 := by omega
  have h2 : n % 10 ≤ 9 := by omega
  have h3 : n / 10 * 10 + n % 10 = n := by omega
  simp [pad2, parse2, digVal_digitChar _ h1, digVal_digitChar _ h2, h3]

theorem parse4_pad4 {r : List Char} (n : ℕ) (hn : n ≤ 9999) :
    parse4 (pad4 n ++ r) = some (n, r) := by
  have h1 : n / 1000 ≤ 9 := by omega
  have h2 : n / 100 % 10 ≤ 9 := by omega
  have h3 : n / 10 % 10 ≤ 9 := by omega
  have h4 : n % 10 ≤ 9 := by omega
  have h5 : n / 1000 * 1000 + n / 100 % 10 * 100 + n / 10 % 10 * 10 + n % 10 = n := by
    omega
  simp [pad4, parse4, digVal_digitChar _ h1, digVal_digitChar _ h2,
    digVal_digitChar _ h3, digVal_digitChar _ h4, h5]

theorem expectChar_cons_self (ch : Char) (r : List Char) :
    expectChar ch (ch :: r) = some r := by
  simp [expectChar]

theorem parse2_pad2_nil (n : ℕ) (hn : n ≤ 99) : parse2 (pad2 n) = some (n, []) := by
  have h := @parse2_pad2 [] n hn
  simpa using h

theorem parseHM_pads (a b : ℕ) (ha : a ≤ 23) (hb : b ≤ 59) :
    parseHM (pad2 a ++ ':' :: pad2 b) = some (a * 60 + b) := by
  simp [parseHM, parse2_pad2 a (by omega), expectChar_cons_self,
    parse2_pad2_nil b (by omega), ha, hb]

theorem parseOffset_plus00 :
    parseOffset ['+', '0', '0', ':', '0', '0'] = some (some 0) := by
  decide

theorem parseOffset_renderTZ (m : ℤ) (hm : m.natAbs ≤ 1439) :
    parseOffset (renderTZ (.offMin m)) = some (some m) := by
  have h60 : m.natAbs / 60 ≤ 23 := by omega
  have h60b : m.natAbs % 60 ≤ 59 := by omega
  by_cases hneg : m < 0
  · have hr : renderTZ (.offMin m) =
        '-' :: pad2 (m.natAbs / 60) ++ ':' :: pad2 (m.natAbs % 60) := by
      simp [renderTZ, hneg]
    rw [hr, List.cons_append]
    simp only [parseOffset, parseHM_pads _ _ h60 h60b, Option.map_some']
    refine congrArg some (congrArg some ?_)
    omega
  · have hr : renderTZ (.offMin m) =
        '+' :: pad2 (m.natAbs / 60) ++ ':' :: pad2 (m.natAbs % 60) := by
      simp [renderTZ, hneg]
    rw [hr, List.cons_append]
    simp only [parseOffset, parseHM_pads _ _ h60 h60b, Option.map_some']
    refine congrArg some (congrArg some ?_)
    omega

/-- Characters that are neither a dot nor a `Z` (so the split and the
`Z`-replacement leave them alone). -/
def charClean (l : List Char) : Prop :=
  ∀ c ∈ l, (c == '.') = false ∧ (c == 'Z') = false

theorem charClean_append {l1 l2 : List Char} (a : charClean l1) (b : charClean l2) :
    charClean (l1 ++ l2) := by
  intro c hc
  rcases List.mem_append.mp hc with h | h
  exacts [a c h, b c h]

theorem charClean_cons {c0 : Char} {l : List Char}
    (h0 : (c0 == '.') = false ∧ (c0 == 'Z') = false) (h : charClean l) :
    charClean (c0 :: l) := by
  intro c hc
  rcases List.mem_cons.mp hc with rfl | hc
  exacts [h0, h c hc]

theorem charClean_pad2 (n : ℕ) (hn : n ≤ 99) : charClean (pad2 n) := by
  have h1 : n / 10 ≤ 9 := by omega
  have h2 : n % 10 ≤ 9 := by omega
  intro c hc
  simp [pad2] at hc
  rcases hc with rfl | rfl
  · exact ⟨digitChar_beq_dot _ h1, digitChar_beq_z _ h1⟩
  · exact ⟨digitChar_beq_dot _ h2, digitChar_beq_z _ h2⟩

theorem charClean_pad4 (n : ℕ) (hn : n ≤ 9999) : charClean (pad4 n) := by
  have h1 : n / 1000 ≤ 9 := by omega
  have h2 : n / 100 % 10 ≤ 9 := by omega
  have h3 : n / 10 % 10 ≤ 9 := by omega
  have h4 : n % 10 ≤ 9 := by omega
  intro c hc
  simp [pad4] at hc
  rcases hc with rfl | rfl | rfl | rfl
  · exact ⟨digitChar_beq_dot _ h1, digitChar_beq_z _ h1⟩
  · exact ⟨digitChar_beq_dot _ h2, digitChar_beq_z _ h2⟩
  · exact ⟨digitChar_beq_dot _ h3, digitChar_beq_z _ h3⟩
  · exact ⟨digitChar_beq_dot _ h4, digitChar_beq_z _ h4⟩

theorem charClean_dtChars {y mo d hr mi s : ℕ} (hv : validDT y mo d hr mi s) :
    charClean (dtChars y mo d hr mi s) := by
  obtain ⟨h1, h2, h3, h4, h5, h6, h7, h8, h9⟩ := hv
  have hd : d ≤ 31 := le_trans h6 (daysInMonth_le y mo)
  unfold dtChars
  simp only [List.append_assoc, List.cons_append]
  refine charClean_append (charClean_pad4 y h2) ?_
  refine charClean_cons (by decide) ?_
  refine charClean_append (charClean_pad2 mo (by omega)) ?_
  refine charClean_cons (by decide) ?_
  refine charClean_append (charClean_pad2 d (by omega)) ?_
  refine charClean_cons (by decide) ?_
  refine charClean_append (charClean_pad2 hr (by omega)) ?_
  refine charClean_cons (by decide) ?_
  refine charClean_append (charClean_pad2 mi (by omega)) ?_
  refine charClean_cons (by decide) ?_
  exact charClean_pad2 s (by omega)

theorem charClean_renderTZ_off (m : ℤ) (hm : m.natAbs ≤ 1439) :
    charClean (renderTZ (.offMin m)) := by
  have h60 : m.natAbs / 60 ≤ 99 := by omega
  have h60b : m.natAbs % 60 ≤ 99 := by omega
  unfold renderTZ
  refine charClean_cons ?_ ?_
  · by_cases hneg : m < 0 <;> simp [hneg]
  refine charClean_append (charClean_pad2 _ h60) ?_
  refine charClean_cons (by decide) ?_
  exact charClean_pad2 _ h60b

theorem any_dot_eq_false {l : List Char} (h : charClean l) :
    (l.any fun c => c == '.') = false := by
  induction l with
  | nil => rfl
  | cons c cs ih =>
    have hc := h c (List.mem_cons_self c cs)
    simp [hc.1, ih fun x hx => h x (List.mem_cons_of_mem c hx)]

theorem replaceZ_clean {l : List Char} (h : charClean l) : replaceZ l = l := by
  induction l with
  | nil => rfl
  | cons c cs ih =>
    have hc := h c (List.mem_cons_self c cs)
    simp [replaceZ, hc.2, ih fun x hx => h x (List.mem_cons_of_mem c hx)]

theorem replaceZ_append (l1 l2 : List Char) :
    replaceZ (l1 ++ l2) = replaceZ l1 ++ replaceZ l2 := by
  induction l1 with
  | nil => rfl
  | cons c cs ih => simp [replaceZ, ih, List.append_assoc]

theorem takeWhile_clean_append (l1 l2 : List Char) (h : charClean l1) :
    (l1 ++ '.' :: l2).takeWhile (fun c => !(c == '.')) = l1 := by
  induction l1 with
  | nil => simp [List.takeWhile_cons]
  | cons c cs ih =>
    have hc := (h c (List.mem_cons_self c cs)).1
    simp [List.takeWhile_cons, hc,
      ih fun x hx => h x (List.mem_cons_of_mem c hx)]

theorem parseISO_dtChars {tail : List Char} {tzv : Option ℤ} (y mo d hr mi s : ℕ)
    (hv : validDT y mo d hr mi s) (ht : parseOffset tail = some tzv) :
    parseISO (dtChars y mo d hr mi s ++ tail) = some ⟨y, mo, d, hr, mi, s, tzv⟩ := by
  obtain ⟨h1, h2, h3, h4, h5, h6, h7, h8, h9⟩ := hv
  have hd : d ≤ 31 := le_trans h6 (daysInMonth_le y mo)
  simp only [dtChars, List.cons_append, List.append_assoc]
  simp only [parseISO, parse4_pad4 y h2, expectChar_cons_self,
    parse2_pad2 mo (by omega : mo ≤ 99), parse2_pad2 d (by omega : d ≤ 99),
    parse2_pad2 hr (by omega : hr ≤ 99), parse2_pad2 mi (by omega : mi ≤ 99),
    parse2_pad2 s (by omega : s ≤ 99), ht]
  simp [validDT, h1, h2, h3, h4, h5, h6, h7, h8, h9]

theorem parseISO_dt_nil (y mo d hr mi s : ℕ) (hv : validDT y mo d hr mi s) :
    parseISO (dtChars y mo d hr mi s) = some ⟨y, mo, d, hr, mi, s, none⟩ := by
  have h := parseISO_dtChars y mo d hr mi s hv (rfl : parseOffset [] = some none)
  simpa using h

theorem renderISO_ne_guard {y mo d hr mi s : ℕ} (fr : Option ℕ) (z : TZSpec) :
    ¬(renderISO ⟨y, mo, d, hr, mi, s, fr, z⟩ = "" ∨
      renderISO ⟨y, mo, d, hr, mi, s, fr, z⟩ = "null") := by
  rintro (h | h)
  · have hd2 := congrArg String.data h
    rw [show String.data "" = [] from by decide] at hd2
    simp [renderISO, dtChars, pad4] at hd2
  · have hd2 := congrArg String.data h
    rw [show String.data "null" = ['n', 'u', 'l', 'l'] from by decide] at hd2
    simp [renderISO, dtChars, pad4] at hd2

theorem data_mk (l : List Char) : (String.mk l).data = l := rfl

/-- C4 (amended): for every valid ISO-8601 timestamp that has no
fractional seconds, or whose conveyed timezone is effectively UTC (the
explicit offset is zero, the `Z` marker, or no timezone while the
ambient local offset is zero), the Timestamp Parser returns the same
epoch-seconds value as the reference ISO-8601 parse of the timestamp
with its fractional seconds truncated.  When fractional seconds are
present the code discards everything after the first dot, including any
timezone suffix, and assumes UTC, so the restriction on the conveyed
timezone is necessary. -/
theorem parse_timestamp_matches_truncated_ref (localOff : ℤ) (t : ISOTs)
    (hv : validTs t)
    (hc : t.frac = none ∨ (tzOffsetOf t.tz).getD localOff = 0) :
    parse_timestamp localOff (renderISO t) = some (refEpoch localOff t) := by
  obtain ⟨y, mo, d, hr, mi, s, fr, z⟩ := t
  have hdt : validDT y mo d hr mi s := hv.1
  have htz : tzValid z := hv.2
  have hclean := charClean_dtChars hdt
  unfold parse_timestamp
  rw [if_neg (renderISO_ne_guard fr z)]
  cases fr with
  | none =>
    cases z with
    | naive =>
      have hcond : ¬(((dtChars y mo d hr mi s).any fun c => c == '.') = true) := by
        simp [any_dot_eq_false hclean]
      simp only [renderISO, renderFrac, renderTZ, List.append_nil, data_mk]
      rw [if_neg hcond, replaceZ_clean hclean, parseISO_dt_nil y mo d hr mi s hdt]
      simp [refEpoch, pyTimestampQ, tzOffsetOf]
    | zulu =>
      have hcond : ¬(((dtChars y mo d hr mi s ++ ['Z']).any fun c => c == '.') = true) := by
        simp [List.any_append, any_dot_eq_false hclean]
      have hrep : replaceZ (dtChars y mo d hr mi s ++ ['Z'])
          = dtChars y mo d hr mi s ++ ['+', '0', '0', ':', '0', '0'] := by
        rw [replaceZ_append, replaceZ_clean hclean]
        rfl
      have hp := parseISO_dtChars y mo d hr mi s hdt parseOffset_plus00
      simp only [renderISO, renderFrac, renderTZ, List.append_nil, List.nil_append,
        data_mk]
      rw [if_neg hcond, hrep, hp]
      simp [refEpoch, pyTimestampQ, tzOffsetOf]
    | offMin m =>
      have hcleanZ := charClean_renderTZ_off m htz
      have hcond : ¬(((dtChars y mo d hr mi s ++ renderTZ (.offMin m)).any
          fun c => c == '.') = true) := by
        simp [any_dot_eq_false (charClean_append hclean hcleanZ)]
      have hrep := replaceZ_clean (charClean_append hclean hcleanZ)
      have hp := parseISO_dtChars y mo d hr mi s hdt (parseOffset_renderTZ m htz)
      simp only [renderISO, renderFrac, List.append_nil, List.nil_append, data_mk]
      rw [if_neg hcond, hrep, hp]
      simp [refEpoch, pyTimestampQ, tzOffsetOf]
  | some n =>
    have h0 : (tzOffsetOf z).getD localOff = 0 := by
      rcases hc with h | h
      · simp at h
      · exact h
    have hdot : ((dtChars y mo d hr mi s ++
        ('.' :: ((toString n).data ++ renderTZ z))).any fun c => c == '.') = true := by
      simp [List.any_append]
    have htw : (dtChars y mo d hr mi s ++
        ('.' :: ((toString n).data ++ renderTZ z))).takeWhile (fun c => !(c == '.'))
        = dtChars y mo d hr mi s := takeWhile_clean_append _ _ hclean
    have hrep : replaceZ (dtChars y mo d hr mi s ++ ['Z'])
        = dtChars y mo d hr mi s ++ ['+', '0', '0', ':', '0', '0'] := by
      rw [replaceZ_append, replaceZ_clean hclean]
      rfl
    have hp := parseISO_dtChars y mo d hr mi s hdt parseOffset_plus00
    simp only [renderISO, renderFrac, data_mk, List.cons_append, List.append_assoc]
    rw [if_pos hdot, htw, hrep, hp]
    simp [refEpoch, pyTimestampQ, h0]

/-- C4 counterexample: the valid ISO-8601 timestamp
`2024-01-01T00:00:00.5+05:00` (fractional seconds and a `+05:00`
offset) is parsed by the code to the epoch of `2024-01-01T00:00:00Z`
(1704067200), while the reference parse of the truncated timestamp,
which preserves the `+05:00` offset, yields 1704049200: the conveyed
timezone is not preserved. -/
theorem parse_timestamp_drops_offset_counterexample :
    renderISO ⟨2024, 1, 1, 0, 0, 0, some 5, .offMin 300⟩
      = "2024-01-01T00:00:00.5+05:00" ∧
    parse_timestamp 0 "2024-01-01T00:00:00.5+05:00" = some 1704067200 ∧
    refEpoch 0 ⟨2024, 1, 1, 0, 0, 0, some 5, .offMin 300⟩ = 1704049200 ∧
    (1704067200 : ℚ) ≠ 1704049200 := by
  refine ⟨by decide, by decide, by decide, by norm_num⟩

/-- C4 witness: the amended theorem applied to the concrete timestamp
`2024-06-30T12:30:05Z`. -/
theorem parse_timestamp_matches_truncated_ref_witness :
    validTs ⟨2024, 6, 30, 12, 30, 5, none, .zulu⟩ ∧
    parse_timestamp 0 (renderISO ⟨2024, 6, 30, 12, 30, 5, none, .zulu⟩)
      = some (refEpoch 0 ⟨2024, 6, 30, 12, 30, 5, none, .zulu⟩) :=
  ⟨by decide,
   parse_timestamp_matches_truncated_ref 0 ⟨2024, 6, 30, 12, 30, 5, none, .zulu⟩
     (by decide) (Or.inl rfl)⟩

/-! Session analyzer (`_analyze_jsonl_file`), its cache, the usage
aggregator (`get_all_sessions`, `calculate_usage`) and the context
estimator (`estimate_context_usage`). -/

/-- Session record (the `SessionData` dataclass). -/
structure SessionData where
  session_id : String
  start_time : ℚ
  end_time : ℚ
  duration_hours : ℚ
  prompt_count : ℕ
  sonnet_responses : ℕ
  opus_responses : ℕ
  project : String
  deriving DecidableEq

/-- Context usage record (the `ContextData` dataclass). -/
structure ContextData where
  estimated_tokens : ℕ
  context_limit : ℕ
  percentage : ℚ
  warning_threshold : ℚ := 45
  deriving DecidableEq

/-- Complete usage record (the `UsageData` dataclass). -/
structure UsageData where
  current_5h_prompts : ℕ
  current_5h_start : ℚ
  weekly_sonnet_hours : ℚ
  weekly_opus_hours : ℚ
  weekly_prompts : ℕ
  weekly_start : ℚ
  last_updated : ℚ
  sessions : List SessionData
  context : Option ContextData
  deriving DecidableEq

/-- The timestamps one record contributes in `_analyze_jsonl_file`:
`if ts := msg.get('timestamp')` skips an absent or empty field, and
`if epoch := self._parse_timestamp(ts)` skips both a failed parse and a
falsy `0.0` epoch. -/
def tsContrib (localOff : ℤ) (r : JsonRecord) : List ℚ :=
  match r.timestamp with
  | none => []
  | some ts =>
    if ts = "" then []
    else
      match parse_timestamp localOff ts with
      | some e => if e = 0 then [] else [e]
      | none => []

/-- The (opus, sonnet) increments of one record in
`_analyze_jsonl_file`: only `assistant` records count, `opus` is
checked first and `sonnet` only in the `elif`. -/
def respInc (r : JsonRecord) : ℕ × ℕ :=
  if r.type_ == some "assistant" then
    let model := pyLower (msgModelStr r)
    if strIn "opus" model then (1, 0)
    else if strIn "sonnet" model then (0, 1)
    else (0, 0)
  else (0, 0)

/-- Accumulator of the per-line loop in `_analyze_jsonl_file`. -/
structure ScanAcc where
  timestamps : List ℚ
  prompts : ℕ
  sonnet : ℕ
  opus : ℕ
  deriving DecidableEq

/-- One loop iteration: a line that failed `json.loads` is skipped. -/
def scanLine (localOff : ℤ) (acc : ScanAcc) : Option JsonRecord → ScanAcc
  | none => acc
  | some msg =>
    { timestamps := acc.timestamps ++ tsContrib localOff msg
      prompts := acc.prompts + (if isQualifyingPrompt msg then 1 else 0)
      sonnet := acc.sonnet + (respInc msg).2
      opus := acc.opus + (respInc msg).1 }

/-- The whole line loop. -/
def scanLines (localOff : ℤ) (lines : List (Option JsonRecord)) : ScanAcc :=
  lines.foldl (scanLine localOff) ⟨[], 0, 0, 0⟩

/-- Minimum of the collected timestamps (`timestamps.min()`). -/
def listMinQ : List ℚ → ℚ
  | [] => 0
  | x :: xs => xs.foldl min x

/-- Maximum of the collected timestamps (`timestamps.max()`). -/
def listMaxQ : List ℚ → ℚ
  | [] => 0
  | x :: xs => xs.foldl max x

/-- The cache-miss body of `_analyze_jsonl_file`: scan all lines (an
unreadable file contributes none, via the outer `try`/`except: pass`),
then derive the timestamp bounds and the duration. -/
def analyzeRecords (localOff : ℤ) (sessionId proj : String)
    (lines : List (Option JsonRecord)) : SessionData :=
  let acc := scanLines localOff lines
  let start_time := if acc.timestamps = [] then 0 else listMinQ acc.timestamps
  let end_time := if acc.timestamps = [] then 0 else listMaxQ acc.timestamps
  let duration_hours :=
    if acc.timestamps = [] then 0 else (end_time - start_time) / 3600
  { session_id := sessionId
    start_time := start_time
    end_time := end_time
    duration_hours := duration_hours
    prompt_count := acc.prompts
    sonnet_responses := acc.sonnet
    opus_responses := acc.opus
    project := proj }

/-- The analyzer cache: the keyed map `_cache` plus the single shared
timestamp `_cache_time` of the most recent cache write. -/
structure CacheState where
  cache : List (String × SessionData)
  cacheTime : ℚ
  deriving DecidableEq

/-- Lookup in the cache map. -/
def lookupCache : List (String × SessionData) → String → Option SessionData
  | [], _ => none
  | (k, v) :: rest, key => if k = key then some v else lookupCache rest key

/-- Keyed update of the cache map. -/
def updateCache : List (String × SessionData) → String → SessionData →
    List (String × SessionData)
  | [], key, v => [(key, v)]
  | (k, w) :: rest, key, v =>
    if k = key then (key, v) :: rest else (k, w) :: updateCache rest key v

/-- One transcript file: name stem, modification time, byte size,
whether reading succeeds, and its parsed lines. -/
structure TranscriptFile where
  stem : String
  mtime : ℚ
  size : ℕ
  readOk : Bool
  lines : List (Option JsonRecord)
  deriving DecidableEq

/-- One project directory under the storage root. -/
structure ProjectDir where
  name : String
  files : List TranscriptFile
  deriving DecidableEq

/-- The transcript store. -/
structure FileSystem where
  rootExists : Bool
  projects : List ProjectDir
  deriving DecidableEq

/-- Embeds `_analyze_jsonl_file`: serve from the cache when the key is
present and the shared `_cache_time` is within `cache_duration = 5`
seconds of `now`; otherwise scan the file, store the result, and set
the shared timestamp to `now`.  The returned flag records whether the
file was read. -/
def analyze_jsonl_file (localOff : ℤ) (proj : ProjectDir) (f : TranscriptFile)
    (now : ℚ) (st : CacheState) : SessionData × CacheState × Bool :=
  let path := proj.name ++ "/" ++ f.stem
  match lookupCache st.cache path with
  | some s =>
    if now - st.cacheTime < 5 then (s, st, false)
    else
      let sess := analyzeRecords localOff f.stem proj.name
        (if f.readOk then f.lines else [])
      (sess, ⟨updateCache st.cache path sess, now⟩, true)
  | none =>
    let sess := analyzeRecords localOff f.stem proj.name
      (if f.readOk then f.lines else [])
    (sess, ⟨updateCache st.cache path sess, now⟩, true)

/-- One file of the `get_all_sessions` scan: keep the session only when
its duration is positive (`if session.duration_hours > 0`). -/
def sessionStep (localOff : ℤ) (proj : ProjectDir) (now : ℚ)
    (acc : List SessionData × CacheState) (f : TranscriptFile) :
    List SessionData × CacheState :=
  let r := analyze_jsonl_file localOff proj f now acc.2
  (if r.1.duration_hours > 0 then acc.1 ++ [r.1] else acc.1, r.2.1)

/-- One project directory of the `get_all_sessions` scan. -/
def projectStep (localOff : ℤ) (now : ℚ)
    (acc : List SessionData × CacheState) (proj : ProjectDir) :
    List SessionData × CacheState :=
  proj.files.foldl (sessionStep localOff proj now) acc

/-- Embeds `get_all_sessions`: analyze every transcript of every
project, keeping only sessions with positive duration; a missing root
yields no sessions. -/
def get_all_sessions (localOff : ℤ) (fs : FileSystem) (now : ℚ)
    (st0 : CacheState) : List SessionData × CacheState :=
  if fs.rootExists then fs.projects.foldl (projectStep localOff now) ([], st0)
  else ([], st0)

/-- Python truncation toward zero (`int(x)` on a float). -/
def pyInt (q : ℚ) : ℤ := if 0 ≤ q then ⌊q⌋ else -⌊-q⌋

/-- Embeds `_get_week_start`: from the local civil time, step back
`weekday()` days and zero the time of day.  `localNow` is local epoch
seconds (the fixed-offset model of `datetime.now()`); day 0 of the
epoch is a Thursday, so the weekday index (Monday = 0) of day `n` is
`(n + 3) % 7`. -/
def get_week_start (localNow : ℚ) : ℚ :=
  let days := ⌊localNow / 86400⌋
  let wd := (days + 3) % 7
  ((days - wd) * 86400 : ℤ)

/-- Embeds `_get_5h_cycle_start`. -/
def get_5h_cycle_start (now : ℚ) : ℚ :=
  let hoursSinceEpoch := now / 3600
  let cycleNumber := pyInt (hoursSinceEpoch / 5)
  ((cycleNumber * 5 * 3600 : ℤ) : ℚ)

/-- The sonnet share of one session in the weekly-hours loop of
`calculate_usage`. -/
def sonnetContrib (s : SessionData) : ℚ :=
  if s.sonnet_responses + s.opus_responses > 0 then
    s.duration_hours *
      ((s.sonnet_responses : ℚ) / ((s.sonnet_responses : ℚ) + (s.opus_responses : ℚ)))
  else 0

/-- The opus share of one session in the weekly-hours loop of
`calculate_usage`. -/
def opusContrib (s : SessionData) : ℚ :=
  if s.sonnet_responses + s.opus_responses > 0 then
    s.duration_hours *
      ((s.opus_responses : ℚ) / ((s.sonnet_responses : ℚ) + (s.opus_responses : ℚ)))
  else 0

/-- Python bankers rounding of a rational to an integer.  (CPython
rounds the binary double; at exact decimal ties the double may not be a
tie, but no claim here depends on tie behavior.) -/
def roundHalfEven (q : ℚ) : ℤ :=
  let f := ⌊q⌋
  if q - f < 1 / 2 then f
  else if q - f > 1 / 2 then f + 1
  else if f % 2 = 0 then f else f + 1

/-- Python `round(x, 1)`. -/
def pyRound1 (q : ℚ) : ℚ := (roundHalfEven (q * 10) : ℚ) / 10

/-- Python `round(x, 2)`. -/
def pyRound2 (q : ℚ) : ℚ := (roundHalfEven (q * 100) : ℚ) / 100

/-- Embeds `calculate_usage` (the attached `ContextData` is computed by
`estimate_context_usage` and passed in by the caller-side model). -/
def calculate_usage (localOff : ℤ) (fs : FileSystem) (now localNow : ℚ)
    (st0 : CacheState) (ctx : Option ContextData) : UsageData :=
  let r := get_all_sessions localOff fs now st0
  let sessions := r.1
  let week_start := get_week_start localNow
  let cycle_start := get_5h_cycle_start now
  let week_sessions := sessions.filter fun s => s.start_time ≥ week_start
  let cycle_sessions := sessions.filter fun s => s.start_time ≥ cycle_start
  { current_5h_prompts := (cycle_sessions.map fun s => s.prompt_count).sum
    current_5h_start := cycle_start
    weekly_sonnet_hours := pyRound2 (week_sessions.map sonnetContrib).sum
    weekly_opus_hours := pyRound2 (week_sessions.map opusContrib).sum
    weekly_prompts := (week_sessions.map fun s => s.prompt_count).sum
    weekly_start := week_start
    last_updated := now
    sessions := week_sessions
    context := ctx }

/-- Python `max(files, key=mtime)`: the first file with maximal mtime
(`max` keeps the earlier element on ties). -/
def pyMaxByMtime : List TranscriptFile → Option TranscriptFile
  | [] => none
  | f :: rest =>
    match pyMaxByMtime rest with
    | none => some f
    | some g => if g.mtime > f.mtime then some g else some f

/-- The modification time of a directory's most recent transcript. -/
def dirLatestMtime (p : ProjectDir) : ℚ :=
  match pyMaxByMtime p.files with
  | some f => f.mtime
  | none => 0

/-- Python `max(recent_dirs, key=mtime-of-latest-file)`. -/
def pyMaxByDirMtime : List ProjectDir → Option ProjectDir
  | [] => none
  | p :: rest =>
    match pyMaxByDirMtime rest with
    | none => some p
    | some q => if dirLatestMtime q > dirLatestMtime p then some q else some p

/-- The fallback filter of `estimate_context_usage`: non-hidden
directories holding at least one transcript whose most recent
modification is within the last 300 seconds. -/
def recentCandidate (now : ℚ) (p : ProjectDir) : Bool :=
  !p.name.startsWith "." && !p.files.isEmpty &&
    decide (now - dirLatestMtime p < 300)

/-- The project-directory resolution of `estimate_context_usage`: the
exact encoded-path match under an existing root, else the most recently
active candidate directory; under a missing root nothing resolves. -/
def resolveProjectDir (now : ℚ) (fs : FileSystem) (cwdEnc : String) :
    Option ProjectDir :=
  if fs.rootExists then
    match fs.projects.find? (fun p => p.name == cwdEnc) with
    | some p => some p
    | none => pyMaxByDirMtime (fs.projects.filter (recentCandidate now))
  else none

/-- Characters of one nested content block (`cb.get('text')` on dict
items, one level deep). -/
def nestedChars (cb : NestedItem) : ℕ :=
  if cb.isObj then (cb.text.getD "").length else 0

/-- Characters contributed by one array item of the content scan:
text, serialized tool input, and nested content blocks. -/
def blockChars (b : Block) : ℕ :=
  if b.isObj then
    (b.text.getD "").length +
      (match b.inputStr with
       | some s2 => s2.length
       | none => 0) +
      (match b.nested with
       | some l => (l.map nestedChars).sum
       | none => 0)
  else 0

/-- Characters contributed by one record: only records of type `user`
or `assistant` are scanned. -/
def recordChars (r : JsonRecord) : ℕ :=
  if r.type_ == some "user" || r.type_ == some "assistant" then
    match msgContent r with
    | .str s2 => s2.length
    | .blocks items => (items.map blockChars).sum
  else 0

/-- Total extracted content characters of a transcript (lines that
failed `json.loads` are skipped). -/
def totalContentChars (lines : List (Option JsonRecord)) : ℕ :=
  (lines.map fun l =>
    match l with
    | some r => recordChars r
    | none => 0).sum

/-- The token-estimation core of `estimate_context_usage`, applied to
the selected transcript. -/
def contextCore (f : TranscriptFile) : ContextData :=
  let file_based_tokens := f.size / 6
  let content_based_tokens := totalContentChars f.lines / 4
  let estimated_tokens := max file_based_tokens content_based_tokens
  { estimated_tokens := estimated_tokens
    context_limit := 200000
    percentage := pyRound1 ((estimated_tokens : ℚ) / 200000 * 100)
    warning_threshold := 45 }

/-- Embeds `estimate_context_usage`: resolve the project directory and
its most recent transcript; a failed resolution, an empty directory, or
a failed read all yield `none`. -/
def estimate_context_usage (now : ℚ) (fs : FileSystem) (cwdEnc : String) :
    Option ContextData :=
  match resolveProjectDir now fs cwdEnc with
  | none => none
  | some p =>
    match pyMaxByMtime p.files with
    | none => none
    | some f => if f.readOk then some (contextCore f) else none

/-! Concrete fixtures used by the example parts of the claims. -/

/-- The transcript of the spec's token example: one user record with
content `"hello"`, file size 600 bytes. -/
def helloFile : TranscriptFile :=
  { stem := "session1"
    mtime := 0
    size := 600
    readOk := true
    lines := [some { type_ := some "user"
                     message := some { role := some "user"
                                       content := .str "hello" } }] }

/-- A store holding exactly the example transcript under the encoded
working directory. -/
def helloFS : FileSystem :=
  { rootExists := true
    projects := [{ name := "-home-proj", files := [helloFile] }] }

/-- C2: whenever the Context Estimator produces a result, the estimated
token count is the maximum of the file-size estimate (bytes // 6) and
the content-based estimate (extracted characters // 4), and the
percentage is that maximum over the 200000-token limit times 100,
rounded to one decimal; on the example transcript with content "hello"
(5 characters) and size 600 bytes the estimate is the maximum, 100
tokens. -/
theorem context_estimate_is_max :
    (∀ (now : ℚ) (fs : FileSystem) (cwdEnc : String) (cd : ContextData),
      estimate_context_usage now fs cwdEnc = some cd →
      ∃ p f, resolveProjectDir now fs cwdEnc = some p ∧
        pyMaxByMtime p.files = some f ∧
        cd.estimated_tokens = max (f.size / 6) (totalContentChars f.lines / 4) ∧
        cd.context_limit = 200000 ∧
        cd.percentage = pyRound1 ((cd.estimated_tokens : ℚ) / 200000 * 100)) ∧
    totalContentChars helloFile.lines = 5 ∧
    helloFile.size = 600 ∧
    (estimate_context_usage 0 helloFS "-home-proj").map (fun cd => cd.estimated_tokens)
      = some 100 := by
  refine ⟨?_, by decide, by decide, by decide⟩
  intro now fs cwdEnc cd h
  unfold estimate_context_usage at h
  split at h
  · simp at h
  next p hres =>
    split at h
    · simp at h
    next f hf =>
      by_cases hr : f.readOk
      · rw [if_pos hr] at h
        have hcd : contextCore f = cd := Option.some.inj h
        refine ⟨p, f, hres, hf, ?_, ?_, ?_⟩ <;> rw [← hcd] <;> simp [contextCore]
      · rw [if_neg hr] at h
        simp at h

/-- C2 witness: the general part of the theorem applied to the concrete
example store. -/
theorem context_estimate_is_max_witness :
    ∃ p f, resolveProjectDir 0 helloFS "-home-proj" = some p ∧
      pyMaxByMtime p.files = some f ∧
      (contextCore helloFile).estimated_tokens
        = max (f.size / 6) (totalContentChars f.lines / 4) ∧
      (contextCore helloFile).context_limit = 200000 ∧
      (contextCore helloFile).percentage
        = pyRound1 (((contextCore helloFile).estimated_tokens : ℚ) / 200000 * 100) :=
  context_estimate_is_max.1 0 helloFS "-home-proj" (contextCore helloFile) rfl

/-- Example session for the weekly-hours split: one hour of activity,
two sonnet and three opus responses. -/
def exampleSession : SessionData :=
  { session_id := "s"
    start_time := 0
    end_time := 3600
    duration_hours := 1
    prompt_count := 2
    sonnet_responses := 2
    opus_responses := 3
    project := "p" }

/-- C5: for every session with at least one attributed response, its
sonnet and opus weekly-hour contributions (the proportional split used
by `calculate_usage` before the final rounding) sum exactly to its
duration in exact rational arithmetic. -/
theorem model_hours_split_sums_to_duration (s : SessionData)
    (h : s.sonnet_responses + s.opus_responses > 0) :
    sonnetContrib s + opusContrib s = s.duration_hours := by
  unfold sonnetContrib opusContrib
  rw [if_pos h, if_pos h]
  have hz : ((s.sonnet_responses : ℚ) + (s.opus_responses : ℚ)) ≠ 0 := by
    have hpos : (0 : ℚ) < (s.sonnet_responses : ℚ) + (s.opus_responses : ℚ) := by
      exact_mod_cast h
    linarith
  field_simp
  ring

/-- C5 witness: the split of the example session sums to its one-hour
duration. -/
theorem model_hours_split_sums_to_duration_witness :
    exampleSession.sonnet_responses + exampleSession.opus_responses > 0 ∧
    sonnetContrib exampleSession + opusContrib exampleSession
      = exampleSession.duration_hours :=
  ⟨by decide, model_hours_split_sums_to_duration exampleSession (by decide)⟩

/-- Sessions accumulated by the per-file step all have positive
duration when the incoming accumulator does. -/
theorem sessionStep_fold_pos (localOff : ℤ) (proj : ProjectDir) (now : ℚ) :
    ∀ (files : List TranscriptFile) (acc : List SessionData × CacheState),
      (∀ x ∈ acc.1, x.duration_hours > 0) →
      ∀ x ∈ (files.foldl (sessionStep localOff proj now) acc).1,
        x.duration_hours > 0 := by
  intro files
  induction files with
  | nil => intro acc hacc x hx; exact hacc x hx
  | cons f rest ih =>
    intro acc hacc x hx
    rw [List.foldl_cons] at hx
    refine ih _ ?_ x hx
    intro y hy
    simp only [sessionStep] at hy
    by_cases hd :
        (analyze_jsonl_file localOff proj f now acc.2).1.duration_hours > 0
    · rw [if_pos hd] at hy
      rcases List.mem_append.mp hy with h | h
      · exact hacc y h
      · rw [List.mem_singleton.mp h]
        exact hd
    · rw [if_neg hd] at hy
      exact hacc y hy

/-- Sessions accumulated by the per-project step all have positive
duration when the incoming accumulator does. -/
theorem projectStep_fold_pos (localOff : ℤ) (now : ℚ) :
    ∀ (ps : List ProjectDir) (acc : List SessionData × CacheState),
      (∀ x ∈ acc.1, x.duration_hours > 0) →
      ∀ x ∈ (ps.foldl (projectStep localOff now) acc).1, x.duration_hours > 0 := by
  intro ps
  induction ps with
  | nil => intro acc hacc x hx; exact hacc x hx
  | cons p rest ih =>
    intro acc hacc x hx
    rw [List.foldl_cons] at hx
    exact ih _ (sessionStep_fold_pos localOff p now p.files acc hacc) x hx

/-- A record holding only a timestamp. -/
def tsRecord (ts : String) : JsonRecord := { timestamp := some ts }

/-- A transcript with two timestamps one hour apart (duration 1 h). -/
def sessionFileA : TranscriptFile :=
  { stem := "a"
    mtime := 0
    size := 0
    readOk := true
    lines := [some (tsRecord "2024-01-01T00:00:00Z"),
              some (tsRecord "2024-01-01T01:00:00Z")] }

/-- A store holding exactly the one-hour transcript. -/
def oneSessionFS : FileSystem :=
  { rootExists := true, projects := [{ name := "p", files := [sessionFileA] }] }

/-- C6: a transcript from which no timestamps are collected yields a
session with start, end and duration all zero, and every session
returned by `get_all_sessions` (hence every session consumed by
`calculate_usage` for the weekly and cycle figures) has positive
duration — zero-duration sessions are excluded. -/
theorem zero_duration_sessions_excluded :
    (∀ (localOff : ℤ) (sid proj : String) (lines : List (Option JsonRecord)),
      (scanLines localOff lines).timestamps = [] →
      analyzeRecords localOff sid proj lines =
        { session_id := sid, start_time := 0, end_time := 0, duration_hours := 0,
          prompt_count := (scanLines localOff lines).prompts,
          sonnet_responses := (scanLines localOff lines).sonnet,
          opus_responses := (scanLines localOff lines).opus,
          project := proj }) ∧
    (∀ (localOff : ℤ) (fs : FileSystem) (now : ℚ) (st0 : CacheState),
      ∀ s ∈ (get_all_sessions localOff fs now st0).1, s.duration_hours > 0) ∧
    (∀ (localOff : ℤ) (fs : FileSystem) (now localNow : ℚ) (st0 : CacheState)
        (ctx : Option ContextData),
      ∀ s ∈ (calculate_usage localOff fs now localNow st0 ctx).sessions,
        s.duration_hours > 0) := by
  have hall : ∀ (localOff : ℤ) (fs : FileSystem) (now : ℚ) (st0 : CacheState),
      ∀ s ∈ (get_all_sessions localOff fs now st0).1, s.duration_hours > 0 := by
    intro localOff fs now st0 s hs
    unfold get_all_sessions at hs
    by_cases hr : fs.rootExists
    · rw [if_pos hr] at hs
      exact projectStep_fold_pos localOff now fs.projects ([], st0)
        (by intro x hx; simp at hx) s hs
    · rw [if_neg hr] at hs
      simp at hs
  refine ⟨?_, hall, ?_⟩
  · intro localOff sid proj lines h
    unfold analyzeRecords
    simp only [h]
    rfl
  · intro localOff fs now localNow st0 ctx s hs
    unfold calculate_usage at hs
    simp only [UsageData.sessions] at hs
    have hs2 := List.mem_filter.mp hs
    exact hall localOff fs now st0 s hs2.1

/-- The concrete value of the one-hour example session. -/
theorem sessionA_value :
    analyzeRecords 0 "a" "p" sessionFileA.lines =
      { session_id := "a", start_time := 1704067200, end_time := 1704070800,
        duration_hours := 1, prompt_count := 0, sonnet_responses := 0,
        opus_responses := 0, project := "p" } := by
  have hscan : scanLines 0 sessionFileA.lines =
      { timestamps := [(1704067200 : ℚ), 1704070800], prompts := 0,
        sonnet := 0, opus := 0 } := by decide
  unfold analyzeRecords
  rw [hscan]
  simp only [listMinQ, listMaxQ, List.foldl_cons, List.foldl_nil]
  have hne : ¬([(1704067200 : ℚ), 1704070800] = ([] : List ℚ)) := by simp
  norm_num [min_def, max_def, hne]

/-- The example store yields exactly the one-hour session. -/
theorem oneSessionFS_sessions :
    (get_all_sessions 0 oneSessionFS 0 ⟨[], 0⟩).1
      = [analyzeRecords 0 "a" "p" sessionFileA.lines] := by
  have h1 : (get_all_sessions 0 oneSessionFS 0 ⟨[], 0⟩).1
      = (if (analyzeRecords 0 "a" "p" sessionFileA.lines).duration_hours > 0
          then [analyzeRecords 0 "a" "p" sessionFileA.lines] else []) := rfl
  have hpos : (analyzeRecords 0 "a" "p" sessionFileA.lines).duration_hours > 0 := by
    rw [sessionA_value]
    norm_num
  rw [h1, if_pos hpos]

/-- C6 witness: the theorem applied to the empty transcript and to the
concrete store whose only session lasts one hour. -/
theorem zero_duration_sessions_excluded_witness :
    ((scanLines 0 ([] : List (Option JsonRecord))).timestamps = [] ∧
      analyzeRecords 0 "sid" "proj" [] =
        { session_id := "sid", start_time := 0, end_time := 0, duration_hours := 0,
          prompt_count := (scanLines 0 []).prompts,
          sonnet_responses := (scanLines 0 []).sonnet,
          opus_responses := (scanLines 0 []).opus, project := "proj" }) ∧
    (analyzeRecords 0 "a" "p" sessionFileA.lines).duration_hours > 0 :=
  ⟨⟨rfl, zero_duration_sessions_excluded.1 0 "sid" "proj" [] rfl⟩,
   zero_duration_sessions_excluded.2.1 0 oneSessionFS 0 ⟨[], 0⟩
     (analyzeRecords 0 "a" "p" sessionFileA.lines)
     (by rw [oneSessionFS_sessions]; exact List.mem_singleton.mpr rfl)⟩

/-- C7: the week start falls on a local-midnight Monday (a day index
congruent to Monday, times 86400) at or before the current time and is
the most recent such instant, and the cycle start is the latest
multiple of 5 hours (18000 s) since the epoch at or before the current
time. -/
theorem week_and_cycle_start_correct (localNow now : ℚ) (hn : 0 ≤ now) :
    (get_week_start localNow ≤ localNow ∧
      (∃ k : ℤ, get_week_start localNow = (k : ℚ) * 86400 ∧ (k + 3) % 7 = 0) ∧
      (∀ k : ℤ, (k + 3) % 7 = 0 → (k : ℚ) * 86400 ≤ localNow →
        (k : ℚ) * 86400 ≤ get_week_start localNow)) ∧
    (get_5h_cycle_start now ≤ now ∧
      (∃ k : ℤ, get_5h_cycle_start now = (k : ℚ) * 18000 ∧ 0 ≤ k) ∧
      now < get_5h_cycle_start now + 18000) := by
  constructor
  · have h86 : (0:ℚ) < 86400 := by norm_num
    have hfl : ((⌊localNow / 86400⌋ : ℤ) : ℚ) ≤ localNow / 86400 := Int.floor_le _
    have hmul : ((⌊localNow / 86400⌋ : ℤ) : ℚ) * 86400 ≤ localNow :=
      (le_div_iff₀ h86).mp hfl
    have hwd0 : 0 ≤ (⌊localNow / 86400⌋ + 3) % 7 := Int.emod_nonneg _ (by norm_num)
    refine ⟨?_, ⟨⌊localNow / 86400⌋ - (⌊localNow / 86400⌋ + 3) % 7, ?_, ?_⟩, ?_⟩
    · unfold get_week_start
      push_cast
      have hw : (0:ℚ) ≤ (((⌊localNow / 86400⌋ + 3) % 7 : ℤ) : ℚ) := by
        exact_mod_cast hwd0
      nlinarith
    · unfold get_week_start
      push_cast
      ring
    · omega
    · intro k hk hkle
      have hkd : k ≤ ⌊localNow / 86400⌋ := by
        apply Int.le_floor.mpr
        rw [le_div_iff₀ h86]
        exact hkle
      have hk3 : k * 86400 ≤
          (⌊localNow / 86400⌋ - (⌊localNow / 86400⌋ + 3) % 7) * 86400 := by
        omega
      show (k : ℚ) * 86400 ≤
        (((⌊localNow / 86400⌋ - (⌊localNow / 86400⌋ + 3) % 7) * 86400 : ℤ) : ℚ)
      exact_mod_cast hk3
  · have h18 : (0:ℚ) < 18000 := by norm_num
    have hdd : now / 3600 / 5 = now / 18000 := by ring
    have hq0 : (0:ℚ) ≤ now / 18000 := by positivity
    have heq : get_5h_cycle_start now = ((⌊now / 18000⌋ : ℤ) : ℚ) * 18000 := by
      show ((pyInt (now / 3600 / 5) * 5 * 3600 : ℤ) : ℚ) = ((⌊now / 18000⌋ : ℤ) : ℚ) * 18000
      unfold pyInt
      rw [hdd, if_pos hq0]
      push_cast
      ring
    have hfl : ((⌊now / 18000⌋ : ℤ) : ℚ) ≤ now / 18000 := Int.floor_le _
    refine ⟨?_, ⟨⌊now / 18000⌋, heq, Int.floor_nonneg.mpr hq0⟩, ?_⟩
    · rw [heq]
      exact (le_div_iff₀ h18).mp hfl
    · rw [heq]
      have hlt : now / 18000 < (⌊now / 18000⌋ : ℚ) + 1 := Int.lt_floor_add_one _
      have := (div_lt_iff₀ h18).mp hlt
      nlinarith

/-- C7 witness: the theorem applied at a concrete pair of clock
readings. -/
theorem week_and_cycle_start_correct_witness :
    (0 : ℚ) ≤ 40000 ∧
    ((get_week_start 1000000 ≤ 1000000 ∧
      (∃ k : ℤ, get_week_start 1000000 = (k : ℚ) * 86400 ∧ (k + 3) % 7 = 0) ∧
      (∀ k : ℤ, (k + 3) % 7 = 0 → (k : ℚ) * 86400 ≤ 1000000 →
        (k : ℚ) * 86400 ≤ get_week_start 1000000)) ∧
     (get_5h_cycle_start 40000 ≤ 40000 ∧
      (∃ k : ℤ, get_5h_cycle_start 40000 = (k : ℚ) * 18000 ∧ 0 ≤ k) ∧
      40000 < get_5h_cycle_start 40000 + 18000)) :=
  ⟨by norm_num, week_and_cycle_start_correct 1000000 40000 (by norm_num)⟩

/-- The Python `max` over transcripts is `none` exactly on an empty
directory. -/
theorem pyMaxByMtime_eq_none (l : List TranscriptFile) :
    pyMaxByMtime l = none ↔ l = [] := by
  cases l with
  | nil => simp [pyMaxByMtime]
  | cons f rest =>
    simp only [pyMaxByMtime]
    constructor
    · intro h
      cases hr : pyMaxByMtime rest with
      | none => rw [hr] at h; simp at h
      | some g => rw [hr] at h; by_cases hg : g.mtime > f.mtime <;> simp [hg] at h
    · intro h
      cases h

/-- C8: the Context Estimator yields the explicit no-value result
exactly when no project directory resolves, or the resolved directory
holds no transcript files, or reading the selected transcript fails —
it never propagates a failure. -/
theorem context_estimator_degrades_to_none (now : ℚ) (fs : FileSystem)
    (cwdEnc : String) :
    estimate_context_usage now fs cwdEnc = none ↔
      (resolveProjectDir now fs cwdEnc = none ∨
        (∃ p, resolveProjectDir now fs cwdEnc = some p ∧ p.files = []) ∨
        (∃ p f, resolveProjectDir now fs cwdEnc = some p ∧
          pyMaxByMtime p.files = some f ∧ f.readOk = false)) := by
  unfold estimate_context_usage
  cases hp : resolveProjectDir now fs cwdEnc with
  | none => simp
  | some p =>
    cases hf : pyMaxByMtime p.files with
    | none =>
      have hempty : p.files = [] := (pyMaxByMtime_eq_none p.files).mp hf
      simp [hf, hempty, pyMaxByMtime]
    | some f =>
      have hne : p.files ≠ [] := by
        intro h0
        rw [h0] at hf
        simp [pyMaxByMtime] at hf
      by_cases hr : f.readOk
      · simp [hf, hr, hne]
      · simp [hf, hr]

/-- A transcript whose only timestamp is the epoch instant. -/
def epochFile : TranscriptFile :=
  { stem := "e"
    mtime := 0
    size := 0
    readOk := true
    lines := [some (tsRecord "1970-01-01T00:00:00Z")] }

/-- A store holding exactly the epoch-instant transcript. -/
def epochFS : FileSystem :=
  { rootExists := true, projects := [{ name := "p", files := [epochFile] }] }

/-- C9: a timestamp field that parses to exactly epoch 0.0 is excluded
from the session's timestamp collection just as an unparseable one is
(the walrus-`if` treats the falsy 0.0 like a failed parse), so the
transcript whose only timestamp is 1970-01-01T00:00:00Z yields the
all-zero session, which the aggregator discards. -/
theorem epoch_zero_timestamp_excluded :
    (∀ (localOff : ℤ) (r : JsonRecord) (ts : String), r.timestamp = some ts →
      parse_timestamp localOff ts = some 0 → tsContrib localOff r = []) ∧
    parse_timestamp 0 "1970-01-01T00:00:00Z" = some 0 ∧
    analyzeRecords 0 "e" "p" epochFile.lines =
      { session_id := "e", start_time := 0, end_time := 0, duration_hours := 0,
        prompt_count := 0, sonnet_responses := 0, opus_responses := 0,
        project := "p" } ∧
    (get_all_sessions 0 epochFS 0 ⟨[], 0⟩).1 = [] := by
  refine ⟨?_, by decide, by decide, ?_⟩
  · intro localOff r ts hr hp
    simp only [tsContrib, hr]
    by_cases hts : ts = ""
    · rw [if_pos hts]
    · rw [if_neg hts, hp]
      simp
  · have h1 : (get_all_sessions 0 epochFS 0 ⟨[], 0⟩).1
        = (if (analyzeRecords 0 "e" "p" epochFile.lines).duration_hours > 0
            then [analyzeRecords 0 "e" "p" epochFile.lines] else []) := rfl
    have hz : (analyzeRecords 0 "e" "p" epochFile.lines).duration_hours = 0 := by
      decide
    rw [h1, if_neg]
    rw [hz]
    norm_num

/-- C9 witness: the exclusion rule applied to the concrete epoch-instant
record. -/
theorem epoch_zero_timestamp_excluded_witness :
    (tsRecord "1970-01-01T00:00:00Z").timestamp = some "1970-01-01T00:00:00Z" ∧
    parse_timestamp 0 "1970-01-01T00:00:00Z" = some 0 ∧
    tsContrib 0 (tsRecord "1970-01-01T00:00:00Z") = [] :=
  ⟨rfl, by decide,
   epoch_zero_timestamp_excluded.1 0 (tsRecord "1970-01-01T00:00:00Z")
     "1970-01-01T00:00:00Z" rfl (by decide)⟩

/-- An assistant record whose model mentions both families. -/
def dualModelRecord : JsonRecord :=
  { type_ := some "assistant"
    message := some { role := some "assistant"
                      model := some "claude-OPUS-Sonnet-mix" } }

/-- C10: each assistant record increments at most one of the two
model-family counters, and a model identifier containing both "opus"
and "sonnet" case-insensitively is attributed to opus only (opus is
checked first). -/
theorem assistant_attribution_opus_priority :
    (∀ r : JsonRecord, (respInc r).1 + (respInc r).2 ≤ 1) ∧
    (∀ r : JsonRecord, r.type_ = some "assistant" →
      strIn "opus" (pyLower (msgModelStr r)) = true →
      strIn "sonnet" (pyLower (msgModelStr r)) = true →
      respInc r = (1, 0)) ∧
    respInc dualModelRecord = (1, 0) := by
  refine ⟨?_, ?_, by decide⟩
  · intro r
    simp only [respInc]
    split_ifs <;> norm_num
  · intro r ht ho hs
    simp [respInc, ht, ho]

/-- C10 witness: the priority rule applied to the concrete
mixed-family model identifier. -/
theorem assistant_attribution_opus_priority_witness :
    dualModelRecord.type_ = some "assistant" ∧
    strIn "opus" (pyLower (msgModelStr dualModelRecord)) = true ∧
    strIn "sonnet" (pyLower (msgModelStr dualModelRecord)) = true ∧
    respInc dualModelRecord = (1, 0) :=
  ⟨rfl, by decide, by decide,
   assistant_attribution_opus_priority.2.1 dualModelRecord rfl
     (by decide) (by decide)⟩

/-- A qualifying user-prompt record used by the cache trace. -/
def promptRecord : JsonRecord :=
  { type_ := some "user"
    userType := some "external"
    message := some { role := some "user", content := .str "hi" } }

/-- First version of the transcript at path `p/a`: one prompt. -/
def fileA1 : TranscriptFile :=
  { stem := "a", mtime := 0, size := 0, readOk := true,
    lines := [some promptRecord] }

/-- The same transcript after an external change: two prompts. -/
def fileA2 : TranscriptFile :=
  { stem := "a", mtime := 0, size := 0, readOk := true,
    lines := [some promptRecord, some promptRecord] }

/-- A transcript of an unrelated project, path `q/b`. -/
def fileB : TranscriptFile :=
  { stem := "b", mtime := 0, size := 0, readOk := true, lines := [] }

/-- The two project directories of the cache trace. -/
def dirP : ProjectDir := { name := "p", files := [fileA1] }

/-- The unrelated project directory of the cache trace. -/
def dirQ : ProjectDir := { name := "q", files := [fileB] }

/-- Step 1 of the cache trace: analyze `p/a` at time 0, cache empty. -/
def c3trace1 : SessionData × CacheState × Bool :=
  analyze_jsonl_file 0 dirP fileA1 0 ⟨[], 0⟩

/-- Step 2: analyze the unrelated `q/b` at time 4, which refreshes the
single shared `_cache_time`. -/
def c3trace2 : SessionData × CacheState × Bool :=
  analyze_jsonl_file 0 dirQ fileB 4 c3trace1.2.1

/-- Step 3: request `p/a` again at time 8 — the entry is 8 seconds
old, beyond the 5-second time-to-live — after the file has changed. -/
def c3trace3 : SessionData × CacheState × Bool :=
  analyze_jsonl_file 0 dirP fileA2 8 c3trace2.2.1

/-- The cache-hit case of `_analyze_jsonl_file`: key present and the
shared `_cache_time` within 5 seconds of `now`. -/
theorem analyze_hit (localOff : ℤ) (proj : ProjectDir) (g : TranscriptFile)
    (t : ℚ) (st2 : CacheState) (s : SessionData)
    (hs : lookupCache st2.cache (proj.name ++ "/" ++ g.stem) = some s)
    (hlt : t - st2.cacheTime < 5) :
    analyze_jsonl_file localOff proj g t st2 = (s, st2, false) := by
  simp only [analyze_jsonl_file, hs]
  rw [if_pos hlt]

/-- The cache-miss case of `_analyze_jsonl_file`: key absent, or the
shared `_cache_time` at least 5 seconds old. -/
theorem analyze_miss (localOff : ℤ) (proj : ProjectDir) (g : TranscriptFile)
    (t : ℚ) (st2 : CacheState)
    (hc : lookupCache st2.cache (proj.name ++ "/" ++ g.stem) = none ∨
      ¬(t - st2.cacheTime < 5)) :
    analyze_jsonl_file localOff proj g t st2
      = (analyzeRecords localOff g.stem proj.name
           (if g.readOk then g.lines else []),
         ⟨updateCache st2.cache (proj.name ++ "/" ++ g.stem)
            (analyzeRecords localOff g.stem proj.name
              (if g.readOk then g.lines else [])), t⟩,
         true) := by
  cases hs : lookupCache st2.cache (proj.name ++ "/" ++ g.stem) with
  | none => simp only [analyze_jsonl_file, hs]
  | some s =>
    rcases hc with hc | hc
    · rw [hc] at hs
      cases hs
    · simp only [analyze_jsonl_file, hs]
      rw [if_neg hc]

/-- Updating the cache places the value at its key. -/
theorem lookupCache_updateCache_self (c : List (String × SessionData))
    (k : String) (v : SessionData) :
    lookupCache (updateCache c k v) k = some v := by
  induction c with
  | nil => simp [updateCache, lookupCache]
  | cons kv rest ih =>
    obtain ⟨k2, w⟩ := kv
    by_cases hk : k2 = k
    · simp [updateCache, hk, lookupCache]
    · simp [updateCache, hk, lookupCache, ih]

/-- The session computed from the first version of `p/a`. -/
def sessA1 : SessionData := analyzeRecords 0 "a" "p" fileA1.lines

/-- The cache state after the time-0 analysis of `p/a`. -/
def stateAfter1 : CacheState := ⟨[("p" ++ "/" ++ "a", sessA1)], 0⟩

/-- The session computed from `q/b`. -/
def sessB : SessionData := analyzeRecords 0 "b" "q" fileB.lines

/-- The cache state after the time-4 analysis of `q/b`. -/
def stateAfter2 : CacheState :=
  ⟨[("p" ++ "/" ++ "a", sessA1), ("q" ++ "/" ++ "b", sessB)], 4⟩

/-- C3 counterexample: the `p/a` entry is computed at time 0; an
unrelated analysis of `q/b` at time 4 refreshes the single shared
`_cache_time`; at the time-8 request for `p/a` the entry is 8 seconds
old — older than the 5-second time-to-live — and the file has changed
to hold two prompts instead of one, yet the analyzer serves the stale
one-prompt session from the cache without reading the file.  The entry
is neither treated as stale nor recomputed. -/
theorem cache_ttl_counterexample :
    c3trace1 = (sessA1, stateAfter1, true) ∧
    c3trace2 = (sessB, stateAfter2, true) ∧
    c3trace3 = (sessA1, stateAfter2, false) ∧
    sessA1.prompt_count = 1 ∧
    (analyzeRecords 0 "a" "p" fileA2.lines).prompt_count = 2 := by
  have h1 : c3trace1 = (sessA1, stateAfter1, true) := by
    unfold c3trace1
    rw [analyze_miss 0 dirP fileA1 0 ⟨[], 0⟩ (Or.inl rfl)]
    rfl
  have h2 : c3trace2 = (sessB, stateAfter2, true) := by
    unfold c3trace2
    rw [h1]
    rw [analyze_miss 0 dirQ fileB 4 stateAfter1 (Or.inl rfl)]
    rfl
  have h3 : c3trace3 = (sessA1, stateAfter2, false) := by
    unfold c3trace3
    rw [h2]
    exact analyze_hit 0 dirP fileA2 8 stateAfter2 sessA1 rfl (by norm_num [stateAfter2])
  exact ⟨h1, h2, h3, by decide, by decide⟩

/-- C3 (amended): cache invalidation is governed by the single shared
`_cache_time` — the time of the most recent cache write for any path —
not by the age of the entry itself.  A request is served from the
cache, unchanged and without reading the file, iff its key is present
and the last write of any entry is within 5 seconds; otherwise the
file is read, analyzed and stored, with the shared timestamp set to
the request time.  In particular two analyses of the same path within
5 seconds of a computing call return identical results, the second
from the cache without reading the file; but an entry older than 5
seconds is still served whenever some other analysis refreshed the
shared timestamp within the window. -/
theorem cache_shared_clock_rule (localOff : ℤ) (proj : ProjectDir)
    (f : TranscriptFile) (now : ℚ) (st : CacheState) :
    (∀ s, lookupCache st.cache (proj.name ++ "/" ++ f.stem) = some s →
      now - st.cacheTime < 5 →
      analyze_jsonl_file localOff proj f now st = (s, st, false)) ∧
    ((lookupCache st.cache (proj.name ++ "/" ++ f.stem) = none ∨
        ¬(now - st.cacheTime < 5)) →
      analyze_jsonl_file localOff proj f now st
        = (analyzeRecords localOff f.stem proj.name
             (if f.readOk then f.lines else []),
           ⟨updateCache st.cache (proj.name ++ "/" ++ f.stem)
              (analyzeRecords localOff f.stem proj.name
                (if f.readOk then f.lines else [])), now⟩,
           true)) ∧
    (∀ (f2 : TranscriptFile) (now2 : ℚ), f2.stem = f.stem →
      (lookupCache st.cache (proj.name ++ "/" ++ f.stem) = none ∨
        ¬(now - st.cacheTime < 5)) →
      now2 - now < 5 →
      (analyze_jsonl_file localOff proj f2 now2
          (analyze_jsonl_file localOff proj f now st).2.1).1
        = (analyze_jsonl_file localOff proj f now st).1 ∧
      (analyze_jsonl_file localOff proj f2 now2
          (analyze_jsonl_file localOff proj f now st).2.1).2.2 = false) := by
  refine ⟨fun s hs hlt => analyze_hit localOff proj f now st s hs hlt,
          fun hc => analyze_miss localOff proj f now st hc, ?_⟩
  intro f2 now2 hstem hc hlt2
  rw [analyze_miss localOff proj f now st hc]
  have hs2 : lookupCache
      (updateCache st.cache (proj.name ++ "/" ++ f.stem)
        (analyzeRecords localOff f.stem proj.name
          (if f.readOk then f.lines else [])))
      (proj.name ++ "/" ++ f2.stem)
      = some (analyzeRecords localOff f.stem proj.name
          (if f.readOk then f.lines else [])) := by
    rw [hstem]
    exact lookupCache_updateCache_self _ _ _
  rw [analyze_hit localOff proj f2 now2 _ _ hs2 hlt2]
  exact ⟨rfl, rfl⟩

/-- C3 amended-theorem witness: a concrete cache hit at time 4 on an
entry written at time 0. -/
theorem cache_shared_clock_rule_witness :
    lookupCache (⟨[("p" ++ "/" ++ "a", sessA1)], 0⟩ : CacheState).cache
      (dirP.name ++ "/" ++ fileA1.stem) = some sessA1 ∧
    (4 : ℚ) - (⟨[("p" ++ "/" ++ "a", sessA1)], 0⟩ : CacheState).cacheTime < 5 ∧
    analyze_jsonl_file 0 dirP fileA1 4 ⟨[("p" ++ "/" ++ "a", sessA1)], 0⟩
      = (sessA1, ⟨[("p" ++ "/" ++ "a", sessA1)], 0⟩, false) :=
  ⟨rfl, by norm_num,
   (cache_shared_clock_rule 0 dirP fileA1 4 ⟨[("p" ++ "/" ++ "a", sessA1)], 0⟩).1
     sessA1 rfl (by norm_num)⟩
